import Mathlib

/-!
Verification of the Row Stream Engine of `CSV_Gen.py` (class `CSV_Gen`).

The Python class is shallowly embedded: each method becomes a Lean function
over explicit state (`Config`).  Python dicts are modelled as association
lists (`AList`) whose lookup (`alGet`) returns the most recently inserted
binding for a key, matching `d[k] = v` overwrite semantics and the
`{**a, **b}` merge (later entries win).  Python exceptions are modelled by
`Except PyErr`.  Python `None` flowing into a field-name position is
modelled by `Option.none`.  Strings are treated character-wise (ASCII case
mapping), matching `str.lower` / `str.replace(' ', '_')` on the data the
program handles.
-/

namespace CSVGen

/-- Python dict modelled as an insertion-ordered association list. -/
abbrev AList (α : Type) := List (String × α)

/-- Dict lookup: the *last* binding of the key wins, so that appending a
binding models `d[k] = v` and `alGet (a ++ b)` models `{**a, **b}`. -/
def alGet {α : Type} : AList α → String → Option α
  | [], _ => none
  | p :: rest, k =>
    match alGet rest k with
    | some v => some v
    | none => if p.1 = k then some p.2 else none

/-- Key set of a dict. -/
def keyFinset {α : Type} (d : AList α) : Finset String :=
  (d.map Prod.fst).toFinset

/-- `CSV_Gen.snakecase` / `CSV_Gen._to_snakecase`:
`string.lower().replace(' ', '_')`, applied character-wise. -/
def snakeChar (c : Char) : Char :=
  if c.toLower = ' ' then '_' else c.toLower

/-- `CSV_Gen._to_snakecase(string)`: lower-case the string and replace
spaces with underscores. -/
def snakecase (s : String) : String :=
  String.mk (s.data.map snakeChar)

/-- A value of the rename mapping `_field_name_mappings`: either a literal
replacement string or a single-argument function. -/
inductive RenameVal where
  | str (s : String)
  | fn (f : String → String)

/-- Python truthiness of a rename-mapping value: the empty string is falsy,
every other string and every function is truthy. -/
def truthyR : RenameVal → Bool
  | .str s => !(s = "")
  | .fn _ => true

/-- Python `a or b` on optional rename values (`None` is falsy). -/
def pyOrR (a b : Option RenameVal) : Option RenameVal :=
  match a with
  | some v => if truthyR v then some v else b
  | none => b

/-- The merged map built at the top of `_change_field_name`:
`{**self._field_name_mappings, **{snake(k): v for k, v in ...items()}}`. -/
def mergedMap (m : AList RenameVal) : AList RenameVal :=
  m ++ m.map (fun p => (snakecase p.1, p.2))

/-- The specific-rename stage of `CSV_Gen._change_field_name`:
`none` models the Python value `None` being assigned to `field_name`
(which happens only if the `or`-chain produces `None`). -/
def changeFieldNameSpecific (m : AList RenameVal) (name : String) : Option String :=
  let fnmap := mergedMap m
  if (alGet fnmap name).isSome || (alGet fnmap (snakecase name)).isSome then
    match pyOrR (alGet fnmap name) (alGet fnmap (snakecase name)) with
    | some (.fn f) => some (f name)
    | some (.str s) => some s
    | none => none
  else some name

/-- `CSV_Gen._change_field_name(field_name)`: the specific-rename stage
followed by the `'^ALL'` wildcard (applied only when callable).  The
wildcard lookup is on the original mapping, not the merged one.  (`Option.map`
in the `none` case is never exercised: see `changeFieldNameSpecific_isSome`.) -/
def changeFieldName (m : AList RenameVal) (name : String) : Option String :=
  match alGet m "^ALL" with
  | some (.fn g) => (changeFieldNameSpecific m name).map g
  | _ => changeFieldNameSpecific m name

theorem snakeChar_idem (c : Char) : snakeChar (snakeChar c) = snakeChar c := by
  unfold snakeChar
  have htoNat : ∀ n : Nat, n < 55296 → (Char.ofNat n).toNat = n := by
    intro n h
    rw [Char.ofNat, dif_pos (Or.inl h)]
    rfl
  have hidem : ∀ a : Char, a.toLower.toLower = a.toLower := by
    intro a
    unfold Char.toLower
    by_cases h : a.toNat ≥ 65 ∧ a.toNat ≤ 90
    · rw [if_pos h]
      have hv : (Char.ofNat (a.toNat + 32)).toNat = a.toNat + 32 := htoNat _ (by omega)
      rw [if_neg (by omega)]
    · rw [if_neg h, if_neg h]
  by_cases h : c.toLower = ' '
  · rw [if_pos h]
    decide
  · rw [if_neg h, hidem c, if_neg h]

theorem snakecase_idem (s : String) : snakecase (snakecase s) = snakecase s := by
  unfold snakecase
  simp [List.map_map, Function.comp_def, snakeChar_idem]

theorem alGet_append {α : Type} (d₁ d₂ : AList α) (k : String) :
    alGet (d₁ ++ d₂) k =
      match alGet d₂ k with
      | some v => some v
      | none => alGet d₁ k := by
  induction d₁ with
  | nil =>
    cases h : alGet d₂ k <;> simp [alGet, h]
  | cons p rest ih =>
    show alGet (p :: (rest ++ d₂)) k = _
    rw [alGet, ih]
    cases h : alGet d₂ k
    · rfl
    · simp [alGet]

theorem alGet_isSome_iff {α : Type} (d : AList α) (k : String) :
    (alGet d k).isSome = true ↔ ∃ p ∈ d, p.1 = k := by
  induction d with
  | nil => simp [alGet]
  | cons p rest ih =>
    rw [alGet]
    cases h : alGet rest k with
    | some v =>
      simp only [Option.isSome_some, true_iff]
      obtain ⟨q, hq, hqk⟩ := ih.mp (by rw [h]; rfl)
      exact ⟨q, List.mem_cons_of_mem _ hq, hqk⟩
    | none =>
      constructor
      · intro hs
        by_cases hk : p.1 = k
        · exact ⟨p, List.mem_cons_self .., hk⟩
        · rw [if_neg hk] at hs
          simp at hs
      · intro ⟨q, hq, hqk⟩
        rcases List.mem_cons.mp hq with rfl | hq'
        · rw [if_pos hqk]
          rfl
        · have : (alGet rest k).isSome = true := ih.mpr ⟨q, hq', hqk⟩
          rw [h] at this
          simp at this

/-- Whenever the raw name is found in the merged map, so is its snake-cased
form: the merged map carries a snake-cased copy of every key, and
snake-casing is idempotent. -/
theorem mergedMap_snake_isSome (m : AList RenameVal) (name : String)
    (h : (alGet (mergedMap m) name).isSome = true) :
    (alGet (mergedMap m) (snakecase name)).isSome = true := by
  obtain ⟨p, hp, hpk⟩ := (alGet_isSome_iff _ _).mp h
  rcases List.mem_append.mp hp with hm | hsn
  · -- `name` is a raw key of the mapping: its snake form is in the snake part
    refine (alGet_isSome_iff _ _).mpr ⟨(snakecase p.1, p.2), ?_, by rw [hpk]⟩
    exact List.mem_append_right _ (List.mem_map.mpr ⟨p, hm, rfl⟩)
  · -- `name` is the snake form of a key: it is its own snake form
    obtain ⟨q, hq, hqe⟩ := List.mem_map.mp hsn
    have : snakecase name = name := by
      have h1 : name = snakecase q.1 := by
        rw [← hpk, ← hqe]
      rw [h1, snakecase_idem]
    rw [this]
    exact h

/-- The specific-rename stage never produces Python `None`: the `or`-chain
always finds the snake-cased entry when the lookup condition holds. -/
theorem changeFieldNameSpecific_isSome (m : AList RenameVal) (name : String) :
    (changeFieldNameSpecific m name).isSome = true := by
  unfold changeFieldNameSpecific
  by_cases hc : ((alGet (mergedMap m) name).isSome || (alGet (mergedMap m) (snakecase name)).isSome) = true
  · rw [if_pos hc]
    have hsnake : (alGet (mergedMap m) (snakecase name)).isSome = true := by
      rcases Bool.or_eq_true_iff.mp hc with h | h
      · exact mergedMap_snake_isSome m name h
      · exact h
    obtain ⟨w, hw⟩ := Option.isSome_iff_exists.mp hsnake
    cases hraw : alGet (mergedMap m) name with
    | none =>
      rw [pyOrR, hw]
      cases w <;> rfl
    | some v =>
      rw [pyOrR]
      by_cases htv : truthyR v = true
      · rw [if_pos htv]
        cases v <;> rfl
      · rw [if_neg htv, hw]
        cases w <;> rfl
  · rw [if_neg hc]
    rfl

/-- Total version of `_change_field_name`, used where the code stores the
result as a field name.  The `none` fallback is dead code by
`changeFieldNameSpecific_isSome` (see `changeFieldName_eq_some`). -/
def changeS (m : AList RenameVal) (name : String) : String :=
  match changeFieldName m name with
  | some s => s
  | none => name

theorem changeFieldName_isSome (m : AList RenameVal) (name : String) :
    (changeFieldName m name).isSome = true := by
  unfold changeFieldName
  cases halg : alGet m "^ALL" with
  | none => exact changeFieldNameSpecific_isSome m name
  | some v =>
    cases v with
    | str s => exact changeFieldNameSpecific_isSome m name
    | fn g =>
      show (Option.map g (changeFieldNameSpecific m name)).isSome = true
      cases h2 : changeFieldNameSpecific m name with
      | none =>
        have := changeFieldNameSpecific_isSome m name
        rw [h2] at this
        simp at this
      | some s => rfl

theorem changeFieldName_eq_some (m : AList RenameVal) (name : String) :
    changeFieldName m name = some (changeS m name) := by
  unfold changeS
  cases h : changeFieldName m name with
  | some s => rfl
  | none =>
    have := changeFieldName_isSome m name
    rw [h] at this
    simp at this

/-- A value-transformer registered in `_value_transformers`. -/
abbrev Trans := String → String

/-- An output record: the dict produced by `to_dict` for one row. -/
abbrev Rec := AList String

/-- Python exceptions raised by the code paths modelled here. -/
inductive PyErr where
  | valueError (msg : String)
  | keyError (msg : String)
  | typeError (msg : String)
  | csvError (msg : String)
  | stopIteration
  | runtimeError
deriving DecidableEq

/-- The `_field_names` attribute: the `'header'` sentinel or a list. -/
inductive FieldNames where
  | header
  | names (ns : List String)
deriving DecidableEq

/-- Iterating `self._field_names` in a `for`/`zip`: a list yields its
elements; the string `'header'` yields its characters (as in
`[self._change_field_name(k) for k in self._field_names]` when the
sentinel is still stored). -/
def fieldNamesList : FieldNames → List String
  | .names ns => ns
  | .header => "header".data.map (fun c => String.mk [c])

/-- The mutable state of a `CSV_Gen` instance (the attributes the core
reads during configuration resolution and streaming). -/
structure Config where
  value_transformers : AList Trans
  field_names : FieldNames
  selected_fields : Finset String
  field_name_mappings : AList RenameVal
  ignore_first_row : Bool

/-- `CSV_Gen.to_dict(values)`: the dict comprehension as a left fold over
`zip(self._field_names, values)` — a pair is kept when no field is
selected (`all_fields`) or the name or its snake-cased form is selected,
and the kept value goes through
`(vt.get(k) or vt.get(snake(k)) or (lambda x: x))(v)` (functions are
always truthy, so the first registered transformer found is applied). -/
def to_dict (sel : Finset String) (vt : AList Trans) (fns : List String)
    (values : List String) : Rec :=
  let all_fields : Bool := sel = (∅ : Finset String)
  (fns.zip values).foldl
    (fun d kv =>
      if all_fields || decide (kv.1 ∈ sel) || decide (snakecase kv.1 ∈ sel) then
        d ++ [(kv.1, (((alGet vt kv.1).orElse
                (fun _ => alGet vt (snakecase kv.1))).getD (fun x => x)) kv.2)]
      else d) []

/-- The spec's description of row-to-record conversion (§4.2 `toRecord`):
pair positionally, filter by the selection set (empty set means all
fields), then apply the transformer registered under the field name or
its snake-cased form, passing the value through unchanged otherwise. -/
def toRecordSpec (sel : Finset String) (vt : AList Trans) (fns : List String)
    (values : List String) : Rec :=
  ((fns.zip values).filter
      (fun kv => decide (sel = ∅) || decide (kv.1 ∈ sel) ||
        decide (snakecase kv.1 ∈ sel))).map
    (fun kv =>
      (kv.1,
        match alGet vt kv.1 with
        | some f => f kv.2
        | none =>
          match alGet vt (snakecase kv.1) with
          | some f => f kv.2
          | none => kv.2))

/-- `CSV_Gen.check_file_path_and_field_names_compatible()`.  `has_header`
is the result of the external `csv.Sniffer().has_header` collaborator;
`rows` is the parsed file.  `next()` on an empty reader raises
`StopIteration`. -/
def checkCompatible (fns : FieldNames) (has_header : Bool)
    (rows : List (List String)) : Except PyErr Unit :=
  match fns with
  | .header =>
    if has_header then .ok ()
    else .error (.keyError "Header missing from CSV file and fields not provided.")
  | .names ns =>
    if ns.isEmpty then .ok ()
    else
      match rows with
      | [] => .error .stopIteration
      | r :: _ =>
        if ns.length = r.length then .ok ()
        else .error (.keyError "Fields provided do not match the CSV file columns.")

/-- `CSV_Gen.apply_final_config()`: run the compatibility check, then
extend the selection set with the renamed forms, merge the transformer
mapping with a renamed-key copy, and rewrite the field-name list through
`_change_field_name`.  All three updates read the pre-call state. -/
def applyFinalConfig (has_header : Bool) (rows : List (List String))
    (cfg : Config) : Except PyErr Config :=
  match checkCompatible cfg.field_names has_header rows with
  | .error e => .error e
  | .ok _ =>
    .ok
      { cfg with
        selected_fields :=
          cfg.selected_fields ∪
            cfg.selected_fields.image (changeS cfg.field_name_mappings),
        value_transformers :=
          cfg.value_transformers ++
            cfg.value_transformers.map
              (fun p => (changeS cfg.field_name_mappings p.1, p.2)),
        field_names :=
          .names ((fieldNamesList cfg.field_names).map
            (changeS cfg.field_name_mappings)) }

/-- One `stream(n)` call, drained: `_stream` applies the final
configuration, skips the first physical row when `ignore_first_row` is
set (`next()` on an exhausted reader inside a generator surfaces as
`RuntimeError`), converts each remaining row with `to_dict`, and
`stream` truncates with `islice` unless `n` is falsy (zero).  Returns the
record list together with the mutated instance state. -/
def streamRun (has_header : Bool) (rows : List (List String)) (cfg : Config)
    (n : Nat) : Except PyErr (List Rec × Config) :=
  match applyFinalConfig has_header rows cfg with
  | .error e => .error e
  | .ok cfg1 =>
    if cfg1.ignore_first_row ∧ rows = [] then .error .runtimeError
    else
      let dataRows := if cfg1.ignore_first_row then rows.drop 1 else rows
      let recs := dataRows.map
        (fun r => to_dict cfg1.selected_fields cfg1.value_transformers
          (fieldNamesList cfg1.field_names) r)
      .ok ((if n = 0 then recs else recs.take n), cfg1)

/-- `CSV_Gen.__init__(file_path, field_names)` with a file path: dialect
detection samples the file and fails on empty input
(`csv.Sniffer().sniff` cannot pick a delimiter); with the `'header'`
sentinel the first row is read off as the field names and
`ignore_first_row` is set. -/
def mkGen (rows : List (List String)) (arg : FieldNames) : Except PyErr Config :=
  match rows with
  | [] => .error (.csvError "Could not determine delimiter")
  | r :: _ =>
    .ok
      { value_transformers := []
        field_names := match arg with | .header => .names r | x => x
        selected_fields := ∅
        field_name_mappings := []
        ignore_first_row := decide (arg = FieldNames.header) }

theorem to_dict_eq_toRecordSpec (sel : Finset String) (vt : AList Trans)
    (fns : List String) (values : List String) :
    to_dict sel vt fns values = toRecordSpec sel vt fns values := by
  unfold to_dict toRecordSpec
  have key : ∀ (l : List (String × String)) (acc : Rec),
      l.foldl
        (fun d kv =>
          if decide (sel = ∅) || decide (kv.1 ∈ sel) || decide (snakecase kv.1 ∈ sel) then
            d ++ [(kv.1, (((alGet vt kv.1).orElse
                    (fun _ => alGet vt (snakecase kv.1))).getD (fun x => x)) kv.2)]
          else d) acc =
      acc ++
        (l.filter
            (fun kv => decide (sel = ∅) || decide (kv.1 ∈ sel) ||
              decide (snakecase kv.1 ∈ sel))).map
          (fun kv =>
            (kv.1,
              match alGet vt kv.1 with
              | some f => f kv.2
              | none =>
                match alGet vt (snakecase kv.1) with
                | some f => f kv.2
                | none => kv.2)) := by
    intro l
    induction l with
    | nil => intro acc; simp
    | cons kv rest ih =>
      intro acc
      by_cases hc : (decide (sel = ∅) || decide (kv.1 ∈ sel) ||
          decide (snakecase kv.1 ∈ sel)) = true
      · rw [List.foldl_cons, if_pos hc, ih, List.filter_cons, if_pos hc, List.map_cons]
        have hval : (((alGet vt kv.1).orElse
              (fun _ => alGet vt (snakecase kv.1))).getD (fun x => x)) kv.2 =
            (match alGet vt kv.1 with
             | some f => f kv.2
             | none =>
               match alGet vt (snakecase kv.1) with
               | some f => f kv.2
               | none => kv.2) := by
          cases hraw : alGet vt kv.1 with
          | some f => rfl
          | none =>
            cases hsn : alGet vt (snakecase kv.1) with
            | some f => rfl
            | none => rfl
        rw [List.append_cons, hval]
        simp
      · rw [List.foldl_cons, if_neg hc, ih, List.filter_cons, if_neg hc]
  rw [key, List.nil_append]

/-- An argument handed to the `field_renames` setter, classified by how the
builtin `dict()` conversion behaves on it: a dict or list of pairs
converts; another iterable whose elements are not key/value pairs makes
`dict()` raise `ValueError`; a non-iterable makes `dict()` raise
`TypeError`. -/
inductive RenameArg where
  | dictLike (d : AList RenameVal)
  | badPairs
  | nonIterable

/-- The `field_renames` property setter: `dict(fnmap)` guarded by
`except ValueError` only — the `TypeError` raised for a non-iterable
argument is not caught and propagates. -/
def setFieldRenames (cfg : Config) (a : RenameArg) : Except PyErr Config :=
  match a with
  | .dictLike d => .ok { cfg with field_name_mappings := d }
  | .badPairs => .error (.valueError "Provide mapping as dict or list of tuples.")
  | .nonIterable => .error (.typeError "dict: argument is not iterable")

/-- An argument handed to the `selected_fields` setter, classified by its
Python type: the setter asserts `type(fields) in (list, tuple, set)`, so
a `str` (which is a Python sequence) and every other type are rejected. -/
inductive SelArg where
  | lst (xs : List String)
  | tup (xs : List String)
  | st (xs : Finset String)
  | strArg (s : String)
  | otherArg

/-- The spec's notion of "a sequence or set" (§4.1 error conditions),
read with Python's meaning of sequence: lists, tuples and strings are
sequences, sets are sets. -/
def isPySequenceOrSet : SelArg → Bool
  | .lst _ => true
  | .tup _ => true
  | .st _ => true
  | .strArg _ => true
  | .otherArg => false

/-- The `selected_fields` property setter: the type assertion converts an
`AssertionError` into `ValueError('Selected fields must be an iterable.')`;
accepted arguments are normalised with `set(fields)`. -/
def setSelectedFields (cfg : Config) (a : SelArg) : Except PyErr Config :=
  match a with
  | .lst xs => .ok { cfg with selected_fields := xs.toFinset }
  | .tup xs => .ok { cfg with selected_fields := xs.toFinset }
  | .st xs => .ok { cfg with selected_fields := xs }
  | .strArg _ => .error (.valueError "Selected fields must be an iterable.")
  | .otherArg => .error (.valueError "Selected fields must be an iterable.")

/-- An argument handed to `value_transformers.add`, classified by whether
`value.items()` yields key/value pairs or the loop raises. -/
inductive TransMapArg where
  | dictLike (d : AList Trans)
  | noItems

/-- `value_transformers.add(value)`: `self._value_transformers[k] = v` per
item of a dict-like argument; any exception becomes the `ValueError`. -/
def addValueTransformers (cfg : Config) (a : TransMapArg) : Except PyErr Config :=
  match a with
  | .dictLike d => .ok { cfg with value_transformers := cfg.value_transformers ++ d }
  | .noItems =>
    .error (.valueError "Value transformers must be in form of dict or list of tuples")

/-- A Python value in the field(s) argument of `transform_field_value`. -/
inductive PyField where
  | str (s : String)
  | nonStr

/-- The field(s) argument of `transform_field_value`: a string, a
list/tuple of values, or a value of any other type. -/
inductive TFVArg where
  | fieldStr (s : String)
  | fieldList (fs : List PyField)
  | fieldOther

/-- The registration loop of the decorator: each list element is asserted
to be a string and then registered; on a non-string the `AssertionError`
becomes a `ValueError`, with the earlier registrations already committed
(the error carries the partially updated dict). -/
def registerLoop (vt : AList Trans) (fs : List PyField) (fn : Trans) :
    Except (PyErr × AList Trans) (AList Trans) :=
  match fs with
  | [] => .ok vt
  | .str s :: rest => registerLoop (vt ++ [(s, fn)]) rest fn
  | .nonStr :: _ =>
    .error (.valueError "Must provide a string or list of strings as fields to transform.", vt)

/-- The wrapper returned by the decorator: it calls the wrapped function
and returns nothing, so the decorated name evaluates to Python `None` on
every input (modelled as `Option.none`). -/
def tfvWrapper (function : Trans) : String → Option String :=
  fun x =>
    let _ := function x
    none

/-- `CSV_Gen.transform_field_value(field_to_transform)` applied to
`function`: registers `function` (the original, unwrapped callable) under
the named field(s) in `_value_transformers` and returns the wrapper that
replaces the decorated function. -/
def transformFieldValue (vt : AList Trans) (arg : TFVArg) (function : Trans) :
    Except (PyErr × AList Trans) (AList Trans × (String → Option String)) :=
  match arg with
  | .fieldList fs =>
    match registerLoop vt fs function with
    | .error e => .error e
    | .ok vt1 => .ok (vt1, tfvWrapper function)
  | .fieldStr s => .ok (vt ++ [(s, function)], tfvWrapper function)
  | .fieldOther =>
    .error (.valueError "Must provide a string or list of strings as fields to transform.", vt)

theorem to_dict_mem_key (sel : Finset String) (vt : AList Trans)
    (fns : List String) (values : List String) (k : String) (v : String)
    (h : (k, v) ∈ to_dict sel vt fns values) : k ∈ fns := by
  rw [to_dict_eq_toRecordSpec] at h
  unfold toRecordSpec at h
  obtain ⟨kv, hkv, heq⟩ := List.mem_map.mp h
  have hzip : kv ∈ fns.zip values := List.mem_of_mem_filter hkv
  have : kv.1 = k := congrArg Prod.fst heq
  rw [← this]
  exact (List.of_mem_zip hzip).1

theorem to_dict_congr_vt (sel : Finset String) (fns : List String)
    (values : List String) (vt₁ vt₂ : AList Trans)
    (h : ∀ k, alGet vt₂ k = alGet vt₁ k) :
    to_dict sel vt₂ fns values = to_dict sel vt₁ fns values := by
  rw [to_dict_eq_toRecordSpec, to_dict_eq_toRecordSpec]
  unfold toRecordSpec
  simp only [h]

theorem keyFinset_append {α : Type} (a b : AList α) :
    keyFinset (a ++ b) = keyFinset a ∪ keyFinset b := by
  simp [keyFinset]

theorem keyFinset_mapKeys {α : Type} (d : AList α) (g : String → String) :
    keyFinset (d.map (fun p => (g p.1, p.2))) = (keyFinset d).image g := by
  unfold keyFinset
  ext x
  simp only [List.mem_toFinset, Finset.mem_image, List.mem_map]
  constructor
  · rintro ⟨q, ⟨p, hp, rfl⟩, rfl⟩
    exact ⟨p.1, ⟨p, hp, rfl⟩, rfl⟩
  · rintro ⟨y, ⟨p, hp, rfl⟩, rfl⟩
    exact ⟨(g p.1, p.2), ⟨p, hp, rfl⟩, rfl⟩

theorem alGet_self_append {α : Type} (b : AList α) (k : String) :
    alGet (b ++ b) k = alGet b k := by
  rw [alGet_append]
  cases alGet b k <;> rfl

/-- The spec's description of `resolveFieldName` (§4.1): look the name and
its snake-cased form up in the (raw- and snake-addressable) rename
mapping, the name's own entry taking precedence through the code's
truthiness-based `or`; invoke a callable entry on the original name, take
a literal entry as the replacement, and leave a name with no entry
unchanged; finally apply the `'^ALL'` wildcard when one is registered and
callable. -/
def resolveFieldNameSpec (m : AList RenameVal) (name : String) : Option String :=
  let afterSpecific : Option String :=
    match pyOrR (alGet (mergedMap m) name) (alGet (mergedMap m) (snakecase name)) with
    | some (.fn f) => some (f name)
    | some (.str s) => some s
    | none => some name
  match alGet m "^ALL" with
  | some (.fn g) => afterSpecific.map g
  | _ => afterSpecific

theorem changeFieldNameSpecific_eq_spec (m : AList RenameVal) (name : String) :
    changeFieldNameSpecific m name =
      (match pyOrR (alGet (mergedMap m) name) (alGet (mergedMap m) (snakecase name)) with
       | some (.fn f) => some (f name)
       | some (.str s) => some s
       | none => some name) := by
  unfold changeFieldNameSpecific
  by_cases hc : ((alGet (mergedMap m) name).isSome ||
      (alGet (mergedMap m) (snakecase name)).isSome) = true
  · rw [if_pos hc]
    have hsnake : (alGet (mergedMap m) (snakecase name)).isSome = true := by
      rcases Bool.or_eq_true_iff.mp hc with h | h
      · exact mergedMap_snake_isSome m name h
      · exact h
    obtain ⟨w, hw⟩ := Option.isSome_iff_exists.mp hsnake
    have hne : pyOrR (alGet (mergedMap m) name)
        (alGet (mergedMap m) (snakecase name)) ≠ none := by
      cases hraw : alGet (mergedMap m) name with
      | none =>
        rw [pyOrR, hw]
        simp
      | some v =>
        rw [pyOrR]
        by_cases htv : truthyR v = true
        · rw [if_pos htv]
          simp
        · rw [if_neg htv, hw]
          simp
    cases hp : pyOrR (alGet (mergedMap m) name) (alGet (mergedMap m) (snakecase name)) with
    | none => exact absurd hp hne
    | some v => cases v <;> rfl
  · rw [if_neg hc]
    have h1 : alGet (mergedMap m) name = none := by
      rcases Bool.or_eq_false_iff.mp (Bool.of_not_eq_true hc) with ⟨ha, _⟩
      exact Option.not_isSome_iff_eq_none.mp (by rw [ha]; simp)
    have h2 : alGet (mergedMap m) (snakecase name) = none := by
      rcases Bool.or_eq_false_iff.mp (Bool.of_not_eq_true hc) with ⟨_, hb⟩
      exact Option.not_isSome_iff_eq_none.mp (by rw [hb]; simp)
    rw [h1, h2]
    rfl

/-- Character-wise upper-casing, standing in for the `toUpper` wildcard
function of the spec's rename example. -/
def toUpperS (s : String) : String :=
  String.mk (s.data.map Char.toUpper)

/-- C2: `_change_field_name` looks the name and its snake-cased form up in
the rename mapping, invokes a callable entry on the original name, takes a
literal entry as the replacement, then applies the `'^ALL'` wildcard when
one is registered and callable; a name with no specific entry is changed
only by the wildcard.  The function is pure — it is a function of the
mapping and the name alone.  With mapping `{A: "X", "^ALL": toUpper}`
field `A` resolves to `"X"` and field `B` (no specific entry) to `"B"`. -/
theorem changeFieldName_matches_spec :
    (∀ (m : AList RenameVal) (name : String),
      changeFieldName m name = resolveFieldNameSpec m name) ∧
    changeFieldName [("A", RenameVal.str "X"), ("^ALL", RenameVal.fn toUpperS)] "A" =
      some "X" ∧
    changeFieldName [("A", RenameVal.str "X"), ("^ALL", RenameVal.fn toUpperS)] "B" =
      some "B" := by
  refine ⟨?_, by decide, by decide⟩
  intro m name
  unfold changeFieldName resolveFieldNameSpec
  cases halg : alGet m "^ALL" with
  | none => exact changeFieldNameSpecific_eq_spec m name
  | some v =>
    cases v with
    | str s => exact changeFieldNameSpecific_eq_spec m name
    | fn g => rw [changeFieldNameSpecific_eq_spec m name]

/-- C3: `to_dict` pairs the raw values positionally with the field-name
list and emits a record keyed by those (post-rename) names: a field is
included when the selection set is empty, and otherwise exactly when the
name or its snake-cased form is selected; an included value goes through
the transformer registered under the name or its snake-cased form, and is
passed through unchanged when none is registered. -/
theorem to_dict_matches_record_spec :
    (∀ (sel : Finset String) (vt : AList Trans) (fns values : List String),
      to_dict sel vt fns values = toRecordSpec sel vt fns values) ∧
    (∀ (vt : AList Trans) (fns values : List String),
      (to_dict (∅ : Finset String) vt fns values).map Prod.fst =
        (fns.zip values).map Prod.fst) := by
  constructor
  · exact to_dict_eq_toRecordSpec
  · intro vt fns values
    rw [to_dict_eq_toRecordSpec]
    unfold toRecordSpec
    rw [List.filter_eq_self.mpr (by intro kv _; simp), List.map_map]
    rfl

/-- C8: row/field-name length mismatches are truncated silently — `zip`
stops at the shorter sequence, so extra field names and extra values are
both dropped without error; field names `[A,B,C]` with row values `[1,2]`
give a record with keys `A,B` only. -/
theorem to_dict_positional_truncation :
    (∀ (sel : Finset String) (vt : AList Trans) (fns values : List String),
      to_dict sel vt fns values =
        to_dict sel vt (fns.take values.length) (values.take fns.length)) ∧
    to_dict (∅ : Finset String) [] ["A", "B", "C"] ["1", "2"] =
      [("A", "1"), ("B", "2")] := by
  have key : ∀ (fns values : List String),
      fns.zip values = (fns.take values.length).zip (values.take fns.length) := by
    intro fns
    induction fns with
    | nil => intro values; simp
    | cons a l ih =>
      intro values
      cases values with
      | nil => simp
      | cons b mtl => simp [ih mtl]
  refine ⟨?_, by decide⟩
  intro sel vt fns values
  unfold to_dict
  rw [← key]

/-- C9 counterexample: with rename mapping `{A: ""}` (a falsy literal) the
field `A` resolves, before and after the wildcard stage, to `""` — the
falsy literal itself, reached through the snake-cased copy of the entry —
and not to `None`. -/
theorem changeFieldName_falsy_counterexample :
    changeFieldNameSpecific [("A", RenameVal.str "")] "A" = some "" ∧
    changeFieldName [("A", RenameVal.str "")] "A" = some "" ∧
    changeFieldNameSpecific [("A", RenameVal.str "")] "A" ≠ none := by
  refine ⟨by decide, by decide, by decide⟩

/-- C9 amended: when the raw-name entry of the merged rename map holds the
falsy literal `""`, the truthiness-based `or` skips it and the field
resolves to the snake-cased entry of the merged map — an entry that
always exists when any lookup succeeds (the merged map carries a
snake-cased copy of every key), and that may itself hold the same falsy
literal; the pre-wildcard result is never Python `None`. -/
theorem changeFieldName_falsy_amended (m : AList RenameVal) (name : String)
    (h : alGet (mergedMap m) name = some (RenameVal.str "")) :
    (changeFieldNameSpecific m name).isSome = true ∧
    (alGet (mergedMap m) (snakecase name)).isSome = true ∧
    changeFieldNameSpecific m name =
      (match alGet (mergedMap m) (snakecase name) with
       | some (.fn f) => some (f name)
       | some (.str s) => some s
       | none => none) := by
  have hraw : (alGet (mergedMap m) name).isSome = true := by rw [h]; rfl
  have hsnake := mergedMap_snake_isSome m name hraw
  refine ⟨changeFieldNameSpecific_isSome m name, hsnake, ?_⟩
  unfold changeFieldNameSpecific
  rw [if_pos (by rw [h]; rfl), h]
  rfl

/-- Witness for `changeFieldName_falsy_amended` at mapping `{A: ""}` and
field `A`. -/
theorem changeFieldName_falsy_amended_witness :
    (changeFieldNameSpecific [("A", RenameVal.str "")] "A").isSome = true ∧
    (alGet (mergedMap [("A", RenameVal.str "")]) (snakecase "A")).isSome = true ∧
    changeFieldNameSpecific [("A", RenameVal.str "")] "A" =
      (match alGet (mergedMap [("A", RenameVal.str "")]) (snakecase "A") with
       | some (.fn f) => some (f "A")
       | some (.str s) => some s
       | none => none) :=
  changeFieldName_falsy_amended [("A", RenameVal.str "")] "A" rfl

/-- A freshly constructed instance with explicit empty field names, used
as the concrete state for setter examples. -/
def cfg0 : Config :=
  { value_transformers := []
    field_names := .names []
    selected_fields := ∅
    field_name_mappings := []
    ignore_first_row := false }

/-- C5 counterexample: a non-iterable rename argument — malformed, being
neither dict-like nor a list of pairs — escapes the setter as a
`TypeError`, not as the `ValueError` the spec calls `ValidationError`;
and a `str` selection argument, although a Python sequence, is rejected
by the `type(fields) in (list, tuple, set)` assertion. -/
theorem setter_validation_counterexample :
    setFieldRenames cfg0 RenameArg.nonIterable =
      .error (.typeError "dict: argument is not iterable") ∧
    PyErr.typeError "dict: argument is not iterable" ≠
      PyErr.valueError "Provide mapping as dict or list of tuples." ∧
    isPySequenceOrSet (SelArg.strArg "AB") = true ∧
    setSelectedFields cfg0 (SelArg.strArg "AB") =
      .error (.valueError "Selected fields must be an iterable.") :=
  ⟨rfl, by decide, rfl, rfl⟩

/-- C5 amended: a dict-like rename argument is stored; an iterable but
malformed one fails with the `ValueError`; a non-iterable one escapes as
a `TypeError`.  A selection argument is accepted (and normalised to a
set) exactly when its type is `list`, `tuple` or `set` — every other
type, including `str`, fails with the `ValueError`.  A transformer
mapping without usable items fails with the `ValueError`.  Each failure
happens at the point of assignment and returns no updated state, so the
previously stored configuration is unchanged. -/
theorem setters_validation_amended (cfg : Config) :
    (∀ d, setFieldRenames cfg (.dictLike d) = .ok { cfg with field_name_mappings := d }) ∧
    setFieldRenames cfg .badPairs =
      .error (.valueError "Provide mapping as dict or list of tuples.") ∧
    setFieldRenames cfg .nonIterable =
      .error (.typeError "dict: argument is not iterable") ∧
    (∀ xs, setSelectedFields cfg (.lst xs) = .ok { cfg with selected_fields := xs.toFinset }) ∧
    (∀ xs, setSelectedFields cfg (.tup xs) = .ok { cfg with selected_fields := xs.toFinset }) ∧
    (∀ xs, setSelectedFields cfg (.st xs) = .ok { cfg with selected_fields := xs }) ∧
    (∀ a, isPySequenceOrSet a = false →
      setSelectedFields cfg a = .error (.valueError "Selected fields must be an iterable.")) ∧
    (∀ s, setSelectedFields cfg (.strArg s) =
      .error (.valueError "Selected fields must be an iterable.")) ∧
    (∀ d, addValueTransformers cfg (.dictLike d) =
      .ok { cfg with value_transformers := cfg.value_transformers ++ d }) ∧
    addValueTransformers cfg .noItems =
      .error (.valueError "Value transformers must be in form of dict or list of tuples") := by
  refine ⟨fun d => rfl, rfl, rfl, fun xs => rfl, fun xs => rfl, fun xs => rfl, ?_,
    fun s => rfl, fun d => rfl, rfl⟩
  intro a ha
  cases a with
  | lst xs => exact absurd ha (by simp [isPySequenceOrSet])
  | tup xs => exact absurd ha (by simp [isPySequenceOrSet])
  | st xs => exact absurd ha (by simp [isPySequenceOrSet])
  | strArg s => rfl
  | otherArg => rfl

/-- Witness for `setters_validation_amended` on the fresh state and a
non-sequence argument. -/
theorem setters_validation_amended_witness :
    setSelectedFields cfg0 SelArg.otherArg =
      .error (.valueError "Selected fields must be an iterable.") :=
  (setters_validation_amended cfg0).2.2.2.2.2.2.1 SelArg.otherArg rfl

theorem registerLoop_ok (vt : AList Trans) (fs : List PyField) (function : Trans)
    (hall : ∀ f ∈ fs, ∃ s, f = PyField.str s) :
    ∃ vt1, registerLoop vt fs function = .ok vt1 ∧
      (∀ s, PyField.str s ∈ fs → alGet vt1 s = some function) ∧
      (∀ t, alGet vt t = some function → alGet vt1 t = some function) := by
  induction fs generalizing vt with
  | nil =>
    refine ⟨vt, rfl, ?_, fun t ht => ht⟩
    intro s hs
    cases hs
  | cons f rest ih =>
    obtain ⟨s, rfl⟩ := hall f (List.mem_cons_self ..)
    obtain ⟨vt1, h1, h2, h3⟩ :=
      ih (vt ++ [(s, function)]) (fun g hg => hall g (List.mem_cons_of_mem _ hg))
    have hbase : alGet (vt ++ [(s, function)]) s = some function := by
      rw [alGet_append]
      simp [alGet]
    refine ⟨vt1, h1, ?_, ?_⟩
    · intro t ht
      rcases List.mem_cons.mp ht with heq | ht2
      · injection heq with hts
        subst hts
        exact h3 t hbase
      · exact h2 t ht2
    · intro t ht
      apply h3
      rw [alGet_append]
      by_cases hst : s = t
      · simp [alGet, hst]
      · simp [alGet, hst, ht]

/-- C10: the decorator registers the original, unwrapped function in
`_value_transformers` under the named field or under every string of the
field list (so streaming looks it up and applies the original function),
while the wrapper it returns — which replaces the decorated name — calls
the wrapped function, discards the result, and returns `None` on every
input. -/
theorem transformFieldValue_registration :
    (∀ (vt : AList Trans) (s : String) (function : Trans),
      transformFieldValue vt (.fieldStr s) function =
        .ok (vt ++ [(s, function)], tfvWrapper function) ∧
      alGet (vt ++ [(s, function)]) s = some function) ∧
    (∀ (vt : AList Trans) (fs : List PyField) (function : Trans),
      (∀ f ∈ fs, ∃ s, f = PyField.str s) →
      ∃ vt1,
        transformFieldValue vt (.fieldList fs) function = .ok (vt1, tfvWrapper function) ∧
        ∀ s, PyField.str s ∈ fs → alGet vt1 s = some function) ∧
    (∀ (function : Trans) (x : String), tfvWrapper function x = none) := by
  refine ⟨?_, ?_, fun function x => rfl⟩
  · intro vt s function
    refine ⟨rfl, ?_⟩
    rw [alGet_append]
    simp [alGet]
  · intro vt fs function hall
    obtain ⟨vt1, h1, h2, _⟩ := registerLoop_ok vt fs function hall
    refine ⟨vt1, ?_, h2⟩
    simp only [transformFieldValue, h1]

/-- Witness for `transformFieldValue_registration`'s list branch at a
one-element field list. -/
theorem transformFieldValue_registration_witness :
    ∃ vt1,
      transformFieldValue [] (TFVArg.fieldList [PyField.str "balls"]) (fun x => x) =
        .ok (vt1, tfvWrapper (fun x => x)) ∧
      ∀ s, PyField.str s ∈ [PyField.str "balls"] → alGet vt1 s = some (fun x => x) :=
  transformFieldValue_registration.2.1 [] [PyField.str "balls"] (fun x => x)
    (by
      intro f hf
      rcases List.mem_singleton.mp hf with rfl
      exact ⟨"balls", rfl⟩)

/-- C4 counterexample: the count check is guarded by the truthiness test
`elif self._field_names:`, so an explicit *empty* field-name list —
reachable through the public `field_names` setter — skips it entirely:
against a two-column first row (a count mismatch, 0 ≠ 2) the
compatibility check passes instead of failing with the `KeyError`, and
streaming proceeds, yielding an empty record for the data row. -/
theorem checkCompatible_empty_fields_counterexample :
    (([] : List String).length ≠ (["a", "b"] : List String).length) ∧
    checkCompatible (FieldNames.names []) false [["a", "b"]] = .ok () ∧
    streamRun false [["a", "b"]] ⟨[], .names [], ∅, [], false⟩ 0 =
      .ok ([[]], ⟨[], .names [], ∅, [], false⟩) :=
  ⟨by decide, rfl, rfl⟩

/-- C4 amended: on input that passed dialect detection (a nonempty row
list), the compatibility check run by `apply_final_config` succeeds
exactly unless (a) field names must come from a header and none is
detected, or (b) an explicit *nonempty* field-name list disagrees with
the column count of the first row — an explicit empty list skips the
count check because of the `elif self._field_names:` truthiness guard; a
failure is the `KeyError` carrying the corresponding message (the spec's
`ConfigurationError`), and it aborts `stream` before any record is
produced. -/
theorem checkCompatible_error_cases_amended (fns : FieldNames) (hh : Bool)
    (rows : List (List String)) (hrows : rows ≠ []) :
    (checkCompatible fns hh rows = .ok () ↔
      ¬(fns = .header ∧ hh = false) ∧
      ¬(∃ l r rest, fns = .names l ∧ rows = r :: rest ∧ l ≠ [] ∧ l.length ≠ r.length)) ∧
    (∀ e, checkCompatible fns hh rows = .error e →
      (e = .keyError "Header missing from CSV file and fields not provided." ∨
       e = .keyError "Fields provided do not match the CSV file columns.") ∧
      (∀ cfg n, cfg.field_names = fns → streamRun hh rows cfg n = .error e)) := by
  obtain ⟨r, rest, rfl⟩ : ∃ r rest, rows = r :: rest := by
    cases rows with
    | nil => exact absurd rfl hrows
    | cons a b => exact ⟨a, b, rfl⟩
  have hstream : ∀ e, checkCompatible fns hh (r :: rest) = .error e →
      ∀ cfg n, cfg.field_names = fns → streamRun hh (r :: rest) cfg n = .error e := by
    intro e he cfg n hcfg
    unfold streamRun applyFinalConfig
    rw [hcfg, he]
  constructor
  · cases fns with
    | header =>
      cases hh with
      | false => simp [checkCompatible]
      | true => simp [checkCompatible]
    | names l =>
      by_cases hl : l.isEmpty
      · have hl2 : l = [] := List.isEmpty_iff.mp hl
        subst hl2
        simp [checkCompatible]
      · have hl2 : l ≠ [] := fun h => hl (by rw [h]; rfl)
        by_cases hlen : l.length = r.length
        · constructor
          · intro _
            refine ⟨by simp, ?_⟩
            rintro ⟨l2, r2, rest2, heq, heq2, -, hne⟩
            injection heq with heq
            injection heq2 with heq2 _
            subst heq
            subst heq2
            exact hne hlen
          · intro _
            simp only [checkCompatible]
            rw [if_neg hl, if_pos hlen]
        · constructor
          · intro hok
            simp only [checkCompatible] at hok
            rw [if_neg hl, if_neg hlen] at hok
            cases hok
          · rintro ⟨-, hno⟩
            exact absurd ⟨l, r, rest, rfl, rfl, hl2, hlen⟩ hno
  · intro e he
    refine ⟨?_, hstream e he⟩
    cases fns with
    | header =>
      cases hh with
      | true => cases he
      | false =>
        left
        injection he with he
        exact he.symm
    | names l =>
      by_cases hl : l.isEmpty
      · simp only [checkCompatible] at he
        rw [if_pos hl] at he
        cases he
      · by_cases hlen : l.length = r.length
        · simp only [checkCompatible] at he
          rw [if_neg hl, if_pos hlen] at he
          cases he
        · right
          simp only [checkCompatible] at he
          rw [if_neg hl, if_neg hlen] at he
          injection he with he
          exact he.symm

/-- Witness for `checkCompatible_error_cases_amended`: the `'header'`
sentinel with no detectable header on a one-row file. -/
theorem checkCompatible_error_cases_amended_witness :
    streamRun false [["a"]] ⟨[], FieldNames.header, ∅, [], true⟩ 0 =
      .error (.keyError "Header missing from CSV file and fields not provided.") := by
  have h := (checkCompatible_error_cases_amended FieldNames.header false [["a"]]
      (by simp)).2
    (.keyError "Header missing from CSV file and fields not provided.") rfl
  exact h.2 ⟨[], FieldNames.header, ∅, [], true⟩ 0 rfl

/-- C7: with the limit omitted or zero, `stream` yields one record per
remaining data row; with a positive limit `n` it yields the first `n` of
those records — exactly `n` when at least `n` data rows remain, and all
of them when fewer do. -/
theorem stream_limit_bound (hh : Bool) (rows : List (List String)) (cfg : Config)
    (n : Nat) (hn : 0 < n) (l : List Rec) (cfg1 : Config)
    (h : streamRun hh rows cfg 0 = .ok (l, cfg1)) :
    streamRun hh rows cfg n = .ok (l.take n, cfg1) ∧
    (l.take n).length = min n l.length ∧
    l.length = (if cfg1.ignore_first_row then rows.length - 1 else rows.length) := by
  unfold streamRun at h ⊢
  cases happ : applyFinalConfig hh rows cfg with
  | error e =>
    simp only [happ] at h
    exact (Except.noConfusion h)
  | ok c1 =>
    simp only [happ] at h ⊢
    by_cases hig : c1.ignore_first_row = true ∧ rows = []
    · rw [if_pos hig] at h
      exact (Except.noConfusion h)
    · rw [if_neg hig] at h
      rw [if_neg hig]
      rw [if_pos trivial] at h
      injection h with h
      injection h with hrecs hcfg
      subst hcfg
      rw [if_neg (Nat.pos_iff_ne_zero.mp hn)]
      subst hrecs
      refine ⟨rfl, List.length_take .., ?_⟩
      rw [List.length_map]
      by_cases hig2 : c1.ignore_first_row = true
      · rw [if_pos hig2, if_pos hig2, List.length_drop]
      · rw [if_neg hig2, if_neg hig2]

/-- State of the one-column explicit-field-names example instance. -/
def cfgE : Config := ⟨[], .names ["a"], ∅, [], false⟩

/-- The state of `cfgE` after `apply_final_config` (no renames, so the
resolved components coincide with the declared ones). -/
def cfgE1 : Config :=
  ⟨[], .names (["a"].map (changeS [])), ∅, [], false⟩

/-- Witness for `stream_limit_bound`: `stream(3)` on a one-row file with
explicit field names yields exactly one record. -/
theorem stream_limit_bound_witness :
    0 < 3 ∧
    streamRun false [["x"]] cfgE 3 = .ok (([[("a", "x")]] : List Rec).take 3, cfgE1) ∧
    (([[("a", "x")]] : List Rec).take 3).length = 1 := by
  have h := stream_limit_bound false [["x"]] cfgE 3 (by decide) [[("a", "x")]] cfgE1 rfl
  exact ⟨by decide, h.1, rfl⟩

/-- C6: with the `'header'` sentinel the field names are read from the
first physical row at construction and `ignore_first_row` is set, so
`stream()` converts only the tail rows — the header row is never yielded
as a data record — and every key of every yielded record comes from the
(possibly renamed) header names; with an explicit field-name list
supplied at construction, `ignore_first_row` is not set and no row is
skipped. -/
theorem stream_header_skipping (hd : List String) (tl : List (List String))
    (sel : Finset String) (vt : AList Trans) (m : AList RenameVal)
    (hh : Bool) (l : List String)
    (hlen : l.length = hd.length ∨ l = []) :
    mkGen (hd :: tl) FieldNames.header = .ok ⟨[], .names hd, ∅, [], true⟩ ∧
    mkGen (hd :: tl) (FieldNames.names l) = .ok ⟨[], .names l, ∅, [], false⟩ ∧
    (∃ sel1 vt1 cfg1,
      streamRun hh (hd :: tl) ⟨vt, .names hd, sel, m, true⟩ 0 =
        .ok (tl.map (fun r => to_dict sel1 vt1 (hd.map (changeS m)) r), cfg1) ∧
      ∀ rec ∈ tl.map (fun r => to_dict sel1 vt1 (hd.map (changeS m)) r),
        ∀ k v, (k, v) ∈ rec → k ∈ hd.map (changeS m)) ∧
    (∃ sel1 vt1 cfg1,
      streamRun hh (hd :: tl) ⟨vt, .names l, sel, m, false⟩ 0 =
        .ok ((hd :: tl).map (fun r => to_dict sel1 vt1 (l.map (changeS m)) r), cfg1)) := by
  have hcheck : ∀ ns : List String, (ns.length = hd.length ∨ ns = []) →
      checkCompatible (FieldNames.names ns) hh (hd :: tl) = .ok () := by
    intro ns hns
    simp only [checkCompatible]
    rcases hns with hns | rfl
    · by_cases hne : ns.isEmpty
      · rw [if_pos hne]
      · rw [if_neg hne, if_pos hns]
    · rfl
  refine ⟨rfl, rfl, ?_, ?_⟩
  · refine ⟨sel ∪ sel.image (changeS m),
      vt ++ vt.map (fun p => (changeS m p.1, p.2)),
      ⟨vt ++ vt.map (fun p => (changeS m p.1, p.2)),
        .names (hd.map (changeS m)),
        sel ∪ sel.image (changeS m), m, true⟩, ?_, ?_⟩
    · unfold streamRun applyFinalConfig
      rw [hcheck hd (Or.inl rfl)]
      rfl
    · intro rec hrec k v hkv
      obtain ⟨r, _, rfl⟩ := List.mem_map.mp hrec
      exact to_dict_mem_key _ _ _ _ _ _ hkv
  · refine ⟨sel ∪ sel.image (changeS m),
      vt ++ vt.map (fun p => (changeS m p.1, p.2)),
      ⟨vt ++ vt.map (fun p => (changeS m p.1, p.2)),
        .names (l.map (changeS m)),
        sel ∪ sel.image (changeS m), m, false⟩, ?_⟩
    unfold streamRun applyFinalConfig
    rw [hcheck l hlen]
    rfl

/-- Witness for `stream_header_skipping` on a two-row file whose first row
is `["Title","Author"]`. -/
theorem stream_header_skipping_witness :
    mkGen [["Title", "Author"], ["t", "a"]] FieldNames.header =
      .ok ⟨[], .names ["Title", "Author"], ∅, [], true⟩ ∧
    mkGen [["Title", "Author"], ["t", "a"]] (FieldNames.names ["A", "B"]) =
      .ok ⟨[], .names ["A", "B"], ∅, [], false⟩ :=
  ⟨(stream_header_skipping ["Title", "Author"] [["t", "a"]] ∅ [] [] false ["A", "B"]
      (Or.inl rfl)).1,
   (stream_header_skipping ["Title", "Author"] [["t", "a"]] ∅ [] [] false ["A", "B"]
      (Or.inl rfl)).2.1⟩

/-- Instance state with explicit field names `["a"]` and the chained
renames `a → b`, `b → c`. -/
def cfgC1 : Config :=
  ⟨[], .names ["a"], ∅, [("a", RenameVal.str "b"), ("b", RenameVal.str "c")], false⟩

/-- `cfgC1` after one `apply_final_config`: the field is now called `b`. -/
def cfgC1b : Config :=
  ⟨[], .names ["b"], ∅, [("a", RenameVal.str "b"), ("b", RenameVal.str "c")], false⟩

/-- `cfgC1b` after another `apply_final_config`: the field moved on to `c`. -/
def cfgC1c : Config :=
  ⟨[], .names ["c"], ∅, [("a", RenameVal.str "b"), ("b", RenameVal.str "c")], false⟩

/-- C1 counterexample: configuration resolution is not idempotent for
every configuration — with chained renames `a → b`, `b → c` a second
`apply_final_config` renames the already-renamed field again, so the
resolved field-name list differs between the two calls and a second
`stream()` yields records keyed differently from the first. -/
theorem applyFinalConfig_not_idempotent_counterexample :
    streamRun false [["x"]] cfgC1 0 = .ok ([[("b", "x")]], cfgC1b) ∧
    streamRun false [["x"]] cfgC1b 0 = .ok ([[("c", "x")]], cfgC1c) ∧
    cfgC1b.field_names ≠ cfgC1c.field_names ∧
    ([[("b", "x")]] : List Rec) ≠ [[("c", "x")]] :=
  ⟨rfl, rfl, by decide, by decide⟩

theorem applyFinalConfig_ok_iff (hh : Bool) (rows : List (List String))
    (st st2 : Config) :
    applyFinalConfig hh rows st = .ok st2 ↔
      (checkCompatible st.field_names hh rows = .ok () ∧
        st2 = { st with
          selected_fields := st.selected_fields ∪
            st.selected_fields.image (changeS st.field_name_mappings),
          value_transformers := st.value_transformers ++
            st.value_transformers.map
              (fun p => (changeS st.field_name_mappings p.1, p.2)),
          field_names := .names ((fieldNamesList st.field_names).map
            (changeS st.field_name_mappings)) }) := by
  unfold applyFinalConfig
  cases hc : checkCompatible st.field_names hh rows with
  | error e =>
    constructor
    · intro h
      exact (Except.noConfusion h)
    · rintro ⟨h, -⟩
      exact (Except.noConfusion h)
  | ok u =>
    cases u
    constructor
    · intro h
      injection h with h
      exact ⟨rfl, h.symm⟩
    · rintro ⟨-, rfl⟩
      rfl

theorem union_image_stable (s : Finset String) (c : String → String)
    (hstab : ∀ x, c (c x) = c x) :
    (s ∪ s.image c) ∪ (s ∪ s.image c).image c = s ∪ s.image c := by
  have himg : (s ∪ s.image c).image c = s.image c := by
    rw [Finset.image_union, Finset.image_image]
    rw [show Finset.image (c ∘ c) s = Finset.image c s from
      Finset.image_congr (fun x _ => hstab x)]
    exact Finset.union_self _
  rw [himg, Finset.union_assoc, Finset.union_self]

/-- C1 amended: for an instance whose field names are already a concrete
list (as they are whenever the instance was built with a file path) and
whose rename resolution is stable — renaming an already-renamed name
changes nothing, e.g. when no rename target is itself a rename key — a
second configuration resolution leaves the resolved field-name list,
selection set and transformer-key set unchanged, and a second `stream()`
call yields the identical record sequence.  Without stability a second
resolution re-applies the renames and can change the configuration (see
the counterexample). -/
theorem applyFinalConfig_idempotent_of_stable (hh : Bool)
    (rows : List (List String)) (cfg cfg1 : Config) (r1 : List Rec)
    (hfn : cfg.field_names ≠ FieldNames.header)
    (hstab : ∀ s, changeS cfg.field_name_mappings
      (changeS cfg.field_name_mappings s) = changeS cfg.field_name_mappings s)
    (h1 : streamRun hh rows cfg 0 = .ok (r1, cfg1)) :
    ∃ cfg2, streamRun hh rows cfg1 0 = .ok (r1, cfg2) ∧
      cfg2.field_names = cfg1.field_names ∧
      cfg2.selected_fields = cfg1.selected_fields ∧
      keyFinset cfg2.value_transformers = keyFinset cfg1.value_transformers := by
  set c := changeS cfg.field_name_mappings with hc
  -- unpack the first stream call
  unfold streamRun at h1
  cases happ : applyFinalConfig hh rows cfg with
  | error e =>
    rw [happ] at h1
    exact (Except.noConfusion h1)
  | ok c1 =>
    simp only [happ] at h1
    by_cases hig : c1.ignore_first_row = true ∧ rows = []
    · rw [if_pos hig] at h1
      exact (Except.noConfusion h1)
    · rw [if_neg hig, if_pos trivial] at h1
      injection h1 with h1
      injection h1 with hrecs hceq
      subst hceq
      obtain ⟨hchk, hshape⟩ := (applyFinalConfig_ok_iff hh rows cfg c1).mp happ
      -- the declared field names form a list
      obtain ⟨l0, hl0⟩ : ∃ l0, cfg.field_names = FieldNames.names l0 := by
        cases hf : cfg.field_names with
        | header => exact absurd hf hfn
        | names l0 => exact ⟨l0, rfl⟩
      -- the compatibility check passes again for the renamed list
      have hchk_names : ∀ ns : List String,
          checkCompatible (FieldNames.names ns) hh rows = .ok () →
          ns.isEmpty = true ∨ ∃ r rest, rows = r :: rest ∧ ns.length = r.length := by
        intro ns h
        by_cases hne : ns.isEmpty
        · exact Or.inl hne
        · right
          cases rows with
          | nil =>
            simp only [checkCompatible, if_neg hne] at h
            exact (Except.noConfusion h)
          | cons r rest =>
            simp only [checkCompatible, if_neg hne] at h
            by_cases hlen : ns.length = r.length
            · exact ⟨r, rest, rfl, hlen⟩
            · rw [if_neg hlen] at h
              exact (Except.noConfusion h)
      have hchk2 : checkCompatible (FieldNames.names (l0.map c)) hh rows = .ok () := by
        rcases hchk_names l0 (by rw [← hl0]; exact hchk) with he | ⟨r, rest, hrows, hlen⟩
        · have h0 : l0 = [] := List.isEmpty_iff.mp he
          subst h0
          rfl
        · subst hrows
          simp only [checkCompatible]
          by_cases hmne : (l0.map c).isEmpty
          · rw [if_pos hmne]
          · rw [if_neg hmne, if_pos (by rw [List.length_map]; exact hlen)]
      -- shape of the once-resolved state
      have hfns1 : c1.field_names = FieldNames.names (l0.map c) := by
        rw [hshape, hl0]
        rfl
      have hsel1 : c1.selected_fields =
          cfg.selected_fields ∪ cfg.selected_fields.image c := by
        rw [hshape]
      have hvt1 : c1.value_transformers =
          cfg.value_transformers ++
            cfg.value_transformers.map (fun p => (c p.1, p.2)) := by
        rw [hshape]
      have hmap1 : c1.field_name_mappings = cfg.field_name_mappings := by
        rw [hshape]
      have hig1 : c1.ignore_first_row = cfg.ignore_first_row := by
        rw [hshape]
      -- second resolution
      have happ2 : applyFinalConfig hh rows c1 = .ok
          { c1 with
            selected_fields := c1.selected_fields ∪
              c1.selected_fields.image (changeS c1.field_name_mappings),
            value_transformers := c1.value_transformers ++
              c1.value_transformers.map
                (fun p => (changeS c1.field_name_mappings p.1, p.2)),
            field_names := .names ((fieldNamesList c1.field_names).map
              (changeS c1.field_name_mappings)) } := by
        refine (applyFinalConfig_ok_iff hh rows c1 _).mpr ⟨?_, rfl⟩
        rw [hfns1]
        exact hchk2
      have hccstab : ∀ p : String × Trans,
          (fun q : String × Trans => (c q.1, q.2)) ((fun q : String × Trans => (c q.1, q.2)) p) =
            (fun q : String × Trans => (c q.1, q.2)) p := by
        intro p
        simp only [hstab p.1]
      -- the doubled transformer dict is lookup-equivalent to the once-merged one
      have hvmap : c1.value_transformers.map (fun q : String × Trans => (c q.1, q.2)) =
          cfg.value_transformers.map (fun q : String × Trans => (c q.1, q.2)) ++
            cfg.value_transformers.map (fun q : String × Trans => (c q.1, q.2)) := by
        rw [hvt1, List.map_append, List.map_map]
        congr 1
        exact List.map_congr_left (fun p _ => hccstab p)
      have hget : ∀ k,
          alGet (c1.value_transformers ++
            c1.value_transformers.map (fun q : String × Trans => (c q.1, q.2))) k =
          alGet c1.value_transformers k := by
        intro k
        rw [hvmap, alGet_append, alGet_self_append, hvt1, alGet_append]
        cases alGet (cfg.value_transformers.map (fun q : String × Trans => (c q.1, q.2))) k <;> rfl
      have hsel2 : c1.selected_fields ∪
          c1.selected_fields.image (changeS c1.field_name_mappings) =
          c1.selected_fields := by
        rw [hmap1, ← hc, hsel1]
        exact union_image_stable _ c hstab
      have hfl : fieldNamesList c1.field_names = l0.map c := by
        rw [hfns1]
        rfl
      have hfns2 : (fieldNamesList c1.field_names).map (changeS c1.field_name_mappings) =
          l0.map c := by
        rw [hmap1, ← hc, hfl, List.map_map]
        exact List.map_congr_left (fun x _ => hstab x)
      refine ⟨{ c1 with
          selected_fields := c1.selected_fields ∪
            c1.selected_fields.image (changeS c1.field_name_mappings),
          value_transformers := c1.value_transformers ++
            c1.value_transformers.map
              (fun p => (changeS c1.field_name_mappings p.1, p.2)),
          field_names := .names ((fieldNamesList c1.field_names).map
            (changeS c1.field_name_mappings)) }, ?_, ?_, ?_, ?_⟩
      · -- the second stream call yields the same records
        unfold streamRun
        simp only [happ2]
        rw [if_neg (show ¬(c1.ignore_first_row = true ∧ rows = []) from hig),
          if_pos trivial]
        refine congrArg Except.ok (Prod.ext ?_ rfl)
        show (if c1.ignore_first_row = true then rows.drop 1 else rows).map
            (fun r => to_dict
              (c1.selected_fields ∪
                c1.selected_fields.image (changeS c1.field_name_mappings))
              (c1.value_transformers ++
                c1.value_transformers.map
                  (fun p => (changeS c1.field_name_mappings p.1, p.2)))
              ((fieldNamesList c1.field_names).map (changeS c1.field_name_mappings)) r) =
          r1
        rw [← hrecs]
        apply List.map_congr_left
        intro r _
        rw [hsel2, hfns2, hfl, hmap1, ← hc]
        exact to_dict_congr_vt _ _ _ _ _ hget
      · show FieldNames.names
            ((fieldNamesList c1.field_names).map (changeS c1.field_name_mappings)) =
          c1.field_names
        rw [hfns2]
        exact hfns1.symm
      · show c1.selected_fields ∪
            c1.selected_fields.image (changeS c1.field_name_mappings) =
          c1.selected_fields
        exact hsel2
      · show keyFinset (c1.value_transformers ++
            c1.value_transformers.map
              (fun p => (changeS c1.field_name_mappings p.1, p.2))) =
          keyFinset c1.value_transformers
        rw [hmap1, ← hc, keyFinset_append, keyFinset_mapKeys, hvt1, keyFinset_append,
          keyFinset_mapKeys]
        exact union_image_stable _ c hstab

/-- Witness for `applyFinalConfig_idempotent_of_stable`: the one-column
instance with no renames (resolution trivially stable). -/
theorem applyFinalConfig_idempotent_of_stable_witness :
    ∃ cfg2, streamRun false [["x"]] cfgE1 0 = .ok ([[("a", "x")]], cfg2) ∧
      cfg2.field_names = cfgE1.field_names ∧
      cfg2.selected_fields = cfgE1.selected_fields ∧
      keyFinset cfg2.value_transformers = keyFinset cfgE1.value_transformers :=
  applyFinalConfig_idempotent_of_stable false [["x"]] cfgE cfgE1 [[("a", "x")]]
    (by decide) (fun s => rfl) rfl

end CSVGen
